import Mathlib

/-!
Verification of a single-node durable key/value store.

A shallow embedding of `src/src/main.rs`: the command model, the write-ahead
log (`write_to_log`, `replay_log`, `compact_log`), the line parser
(`parse_command`) and the per-connection command execution in `handle_client`,
together with proofs of the durability-ordering, replay, compaction and
error-handling properties.

The in-memory `HashMap<String, String>` is embedded as an association list
with unique keys (the `StoreWF` predicate); `insert` overwrites in place,
`remove` deletes the unique matching entry, mirroring the map semantics.
File-system and socket effects are embedded as an explicit event trace, and
the outcome of a fallible log append is an explicit parameter, so every
control path of the Rust `match` is a case of the Lean definition.
-/

namespace KVStore

/-- The `Command` enum of main.rs (serde-serializable tagged variant). -/
inductive Command where
  | SET (key value : String)
  | GET (key : String)
  | DELETE (key : String)
deriving DecidableEq, Repr

/-- The in-memory map `HashMap<String, String>`, embedded as an association
list; well-formed stores (`StoreWF`) have pairwise-distinct keys, which every
`HashMap` value satisfies. -/
abbrev Store := List (String × String)

/-- Keys of a store are pairwise distinct — the invariant every Rust
`HashMap` maintains. -/
def StoreWF (st : Store) : Prop := (st.map Prod.fst).Nodup

instance : DecidablePred StoreWF := fun st =>
  inferInstanceAs (Decidable ((st.map Prod.fst).Nodup))

/-- Rust `map.get(&key)`: lookup of the (unique) entry for `key`. -/
def storeGet (k : String) : Store → Option String
  | [] => none
  | (k', v') :: rest => if k' = k then some v' else storeGet k rest

/-- Rust `map.insert(key, value)`: overwrite the existing entry in place, or add
a fresh binding at the end. -/
def storeInsert (k v : String) : Store → Store
  | [] => [(k, v)]
  | (k', v') :: rest =>
      if k' = k then (k, v) :: rest else (k', v') :: storeInsert k v rest

/-- Rust `map.remove(&key)`: drop the (unique) entry for `key`, returning the
removed value (`Some`/`None` exactly as Rust's `HashMap::remove`). -/
def storeRemove (k : String) : Store → Option String × Store
  | [] => (none, [])
  | (k', v') :: rest =>
      if k' = k then (some v', rest)
      else
        let r := storeRemove k rest
        (r.1, (k', v') :: r.2)

/-- Worker for `splitWhitespace`: scan the characters, accumulating the
current token (in reverse) and emitting it at each whitespace run. -/
def splitWhitespaceAux : List Char → List Char → List String
  | [], acc => if acc.isEmpty then [] else [String.mk acc.reverse]
  | c :: rest, acc =>
      if c.isWhitespace then
        if acc.isEmpty then splitWhitespaceAux rest []
        else String.mk acc.reverse :: splitWhitespaceAux rest []
      else splitWhitespaceAux rest (c :: acc)

/-- Rust's `str::split_whitespace`: split on whitespace runs, yielding only
the non-empty tokens. -/
def splitWhitespace (s : String) : List String :=
  splitWhitespaceAux s.data []

/-- Rust's `str::to_uppercase`, character by character. -/
def toUpperString (s : String) : String :=
  String.mk (s.data.map Char.toUpper)

/-- Function `parse_command` of main.rs: tokenize by whitespace, match the
upper-cased verb together with the token count. -/
def parse_command (input : String) : Except String Command :=
  match splitWhitespace input with
  | [] => .error "ERROR: Empty command"
  | verb :: args =>
    match toUpperString verb with
    | "SET" =>
      match args with
      | [k, v] => .ok (.SET k v)
      | _ => .error "ERROR: SET requires a key and value"
    | "GET" =>
      match args with
      | [k] => .ok (.GET k)
      | _ => .error "ERROR: GET requires a key"
    | "DELETE" =>
      match args with
      | [k] => .ok (.DELETE k)
      | _ => .error "ERROR: DELETE requires a key"
    | _ => .error "ERROR: Unknown command"

/-- The durable log file content, as the sequence of commands whose
serialized lines it holds. -/
abbrev Log := List Command

/-- Outcome of the file-system side of one `write_to_log` call (open /
write / fsync), which the embedding takes as an explicit parameter. -/
inductive AppendResult where
  | ok
  | ioError
deriving DecidableEq, Repr

/-- Function `write_to_log` of main.rs: serialize the command to one line, append it
to the log file and `sync_all` before returning; an I/O failure anywhere
propagates as `Err` and the line is not considered written. -/
def write_to_log (app : AppendResult) (log : Log) (c : Command) :
    Except Unit Log :=
  match app with
  | .ok => .ok (log ++ [c])
  | .ioError => .error ()

/-- One line of the log file as `replay_log` reads it: either it
deserializes (via the external `serde_json`) to a command, or it is
corrupted text that fails to deserialize. -/
inductive LogLine where
  | valid (c : Command)
  | corrupt (raw : String)
deriving DecidableEq, Repr

/-- One iteration result of `reader.lines()`: a line, or a read error
(which `line?` propagates fatally). -/
inductive LineRead where
  | line (l : LogLine)
  | readErr
deriving DecidableEq, Repr

/-- Applying one replayed command to the map: `SET` inserts/overwrites,
`DELETE` removes-if-present, `GET` is ignored (main.rs lines 44–52). -/
def applyCommand (st : Store) : Command → Store
  | .SET k v => storeInsert k v st
  | .DELETE k => (storeRemove k st).2
  | .GET _ => st

/-- The `for line in reader.lines()` loop of `replay_log`: a read error is
fatal (`line?`), a line that fails to deserialize is skipped with a warning,
a valid line is applied to the map. -/
def replayLines : List LineRead → Store → Except Unit Store
  | [], st => .ok st
  | .readErr :: _, _ => .error ()
  | .line (.corrupt _) :: rest, st => replayLines rest st
  | .line (.valid c) :: rest, st => replayLines rest (applyCommand st c)

/-- Function `replay_log` of main.rs: a missing `kvstore.log` (`none`) is not an
error and yields the empty map; otherwise the lines are folded from the
empty map. -/
def replay_log : Option (List LineRead) → Except Unit Store
  | none => .ok []
  | some lines => replayLines lines []

/-- Function `compact_log` of main.rs, as the sequence of log entries it writes to
the fresh file (one `SET` line per map entry, in iteration order); the
temp-file write, fsync and atomic rename are the file-system boundary. -/
def compact_log (st : Store) : Log :=
  st.map (fun kv => Command.SET kv.1 kv.2)

/-- View a log (e.g. one written by `compact_log`) as the line reads a
subsequent `replay_log` performs on it when the file is intact. -/
def logToReads (log : Log) : List LineRead :=
  log.map (fun c => LineRead.line (LogLine.valid c))

/-- One observable effect of the worker / coordinator code, in program
order. `appendFlush` is a successful `write_to_log` (write + `sync_all`);
`appendFail` is a `write_to_log` returning `Err`; `lockAcquire` /
`lockRelease` bracket `data.lock()` … `drop(map)`; `mapInsert` / `mapRemove`
/ `mapRead` are map operations under the lock; `sockWrite` is a
`write_all` + `flush` on the client socket; `compactWrite` is the file I/O
of one `compact_log` call. -/
inductive Event where
  | appendFlush (c : Command)
  | appendFail (c : Command)
  | lockAcquire
  | lockRelease
  | mapInsert (k v : String)
  | mapRemove (k : String)
  | mapRead (k : String)
  | sockWrite (s : String)
  | compactWrite
deriving DecidableEq, Repr

/-- Result of executing one parsed line in `handle_client`: the effect
trace, the map and log afterwards, the response line written (if any), and
whether an `Err` propagated through `?` (terminating the worker). -/
structure StepResult where
  events : List Event
  store : Store
  log : Log
  response : Option String
  fatal : Bool
deriving Repr

/-- The three `Ok(Command::…)` arms of the `match parse_command(&buffer)`
in `handle_client` (main.rs lines 151–189), with the outcome of the
fallible log append an explicit parameter. On `SET`/`DELETE` the append
(and its `?`) comes first; only on its success is the lock taken, the map
mutated, the lock dropped, and the response written. `GET` takes the lock,
reads, drops it, responds, and never touches the log. -/
def execCommand (app : AppendResult) (st : Store) (log : Log) :
    Command → StepResult
  | .SET k v =>
    match write_to_log app log (.SET k v) with
    | .error () => ⟨[.appendFail (.SET k v)], st, log, none, true⟩
    | .ok log' =>
        ⟨[.appendFlush (.SET k v), .lockAcquire, .mapInsert k v,
          .lockRelease, .sockWrite "OK\n"],
         storeInsert k v st, log', some "OK\n", false⟩
  | .GET k =>
    let response :=
      match storeGet k st with
      | some v => v ++ "\n"
      | none => "(nil)\n"
    ⟨[.lockAcquire, .mapRead k, .lockRelease, .sockWrite response],
     st, log, some response, false⟩
  | .DELETE k =>
    match write_to_log app log (.DELETE k) with
    | .error () => ⟨[.appendFail (.DELETE k)], st, log, none, true⟩
    | .ok log' =>
        let r := storeRemove k st
        let response :=
          match r.1 with
          | some _ => "OK\n"
          | none => "(nil)\n"
        ⟨[.appendFlush (.DELETE k), .lockAcquire, .mapRemove k,
          .lockRelease, .sockWrite response],
         r.2, log', some response, false⟩

/-- The `match parse_command(&buffer)` of `handle_client` (main.rs lines
150–196): a parsed command is executed by `execCommand`; a parse error
writes the error text back to the client and nothing else happens. -/
def handle_line (app : AppendResult) (st : Store) (log : Log)
    (input : String) : StepResult :=
  match parse_command input with
  | .ok c => execCommand app st log c
  | .error msg =>
    ⟨[.sockWrite (msg ++ "\n")], st, log, some (msg ++ "\n"), false⟩

/-- The read loop of `handle_client`, projected onto the lines it
successfully reads: each incoming line is paired with the file-system
outcome its append would have. A `fatal` step makes `handle_client` return
`Err` at once — the remaining input is never processed. -/
def handle_client (inputs : List (AppendResult × String)) (st : Store)
    (log : Log) : List Event × Store × Log × Bool :=
  match inputs with
  | [] => ([], st, log, false)
  | (app, input) :: rest =>
    let r := handle_line app st log input
    if r.fatal then (r.events, r.store, r.log, true)
    else
      let rec_ := handle_client rest r.store r.log
      (r.events ++ rec_.1, rec_.2.1, rec_.2.2.1, rec_.2.2.2)

/-- The shutdown tail of `main` (main.rs lines 268–271): the coordinator
takes the store lock (`database.lock()`), runs `compact_log` — file I/O —
while the `MutexGuard` is still alive, and the guard is dropped only when
`main`'s scope ends. -/
def shutdownSequence : List Event :=
  [.lockAcquire, .compactWrite, .lockRelease]

/-- Is the event a socket or file I/O operation? -/
def Event.isIOEvent : Event → Bool
  | .appendFlush _ => true
  | .appendFail _ => true
  | .sockWrite _ => true
  | .compactWrite => true
  | _ => false

/-- Predicate `noIOWhileLocked held tr`: scanning `tr` starting with the lock
`held`, no I/O event occurs at a point where the lock is held. -/
def noIOWhileLocked : Bool → List Event → Bool
  | _, [] => true
  | _, .lockAcquire :: rest => noIOWhileLocked true rest
  | _, .lockRelease :: rest => noIOWhileLocked false rest
  | held, e :: rest => (!(held && Event.isIOEvent e)) && noIOWhileLocked held rest

/-- Predicate `appendBeforeEffects seen tr`: every map mutation and every socket
write in `tr` is preceded (strictly, or via `seen` from earlier context) by
a successful flushed append. -/
def appendBeforeEffects : Bool → List Event → Bool
  | _, [] => true
  | _, .appendFlush _ :: rest => appendBeforeEffects true rest
  | seen, .mapInsert _ _ :: rest => seen && appendBeforeEffects seen rest
  | seen, .mapRemove _ :: rest => seen && appendBeforeEffects seen rest
  | seen, .sockWrite _ :: rest => seen && appendBeforeEffects seen rest
  | seen, _ :: rest => appendBeforeEffects seen rest

/-- Whether the command mutates: `SET` and `DELETE` are the mutating
(persisted) commands. -/
def Command.isMutating : Command → Bool
  | .SET _ _ => true
  | .DELETE _ => true
  | .GET _ => false

/-- Is the command a `SET` whose key is `k`? -/
def Command.isSetFor (k : String) : Command → Bool
  | .SET k' _ => k' = k
  | _ => false

/-- How many `SET` entries for key `k` a log contains. -/
def setCountFor (k : String) (log : Log) : Nat :=
  (log.filter (Command.isSetFor k)).length

/-- The commands of the parseable lines of a log file, in file order. -/
def parseableCommands (lines : List LineRead) : List Command :=
  lines.filterMap fun lr =>
    match lr with
    | .line (.valid c) => some c
    | _ => none

/-- Is the line read a successfully deserialized command? -/
def LineRead.isValidLine : LineRead → Bool
  | .line (.valid _) => true
  | _ => false

/-- Modelled from the claim wording of the parser contract, for comparison
with `parse_command`: tokenize by whitespace; fail on empty input; match
the verb case-insensitively against SET/GET/DELETE; `SET` requires exactly
2 remaining tokens, `GET`/`DELETE` exactly 1; any other verb is unknown. -/
def parseCommandSpec (input : String) : Except String Command :=
  match splitWhitespace input with
  | [] => .error "ERROR: Empty command"
  | verb :: args =>
    if toUpperString verb = "SET" then
      if args.length = 2 then .ok (.SET (args.getD 0 "") (args.getD 1 ""))
      else .error "ERROR: SET requires a key and value"
    else if toUpperString verb = "GET" then
      if args.length = 1 then .ok (.GET (args.getD 0 ""))
      else .error "ERROR: GET requires a key"
    else if toUpperString verb = "DELETE" then
      if args.length = 1 then .ok (.DELETE (args.getD 0 ""))
      else .error "ERROR: DELETE requires a key"
    else .error "ERROR: Unknown command"

/-! ## Lemmas about the store embedding -/

theorem storeGet_eq_none_iff (k : String) (st : Store) :
    storeGet k st = none ↔ k ∉ st.map Prod.fst := by
  induction st with
  | nil => simp [storeGet]
  | cons p rest ih =>
    obtain ⟨k', v'⟩ := p
    by_cases h : k' = k
    · subst h
      simp [storeGet]
    · simp [storeGet, h, ih, Ne.symm h]

theorem storeInsert_of_not_mem {k : String} {st : Store}
    (h : k ∉ st.map Prod.fst) (v : String) :
    storeInsert k v st = st ++ [(k, v)] := by
  induction st with
  | nil => simp [storeInsert]
  | cons p rest ih =>
    obtain ⟨k', v'⟩ := p
    simp only [List.map_cons, List.mem_cons] at h
    push_neg at h
    simp [storeInsert, Ne.symm h.1, ih h.2]

theorem storeRemove_fst (k : String) (st : Store) :
    (storeRemove k st).1 = storeGet k st := by
  induction st with
  | nil => rfl
  | cons p rest ih =>
    obtain ⟨k', v'⟩ := p
    by_cases h : k' = k <;> simp [storeRemove, storeGet, h, ih]

theorem storeRemove_of_get_none {k : String} {st : Store}
    (h : storeGet k st = none) : storeRemove k st = (none, st) := by
  induction st with
  | nil => rfl
  | cons p rest ih =>
    obtain ⟨k', v'⟩ := p
    by_cases hk : k' = k
    · subst hk; simp [storeGet] at h
    · simp only [storeGet, if_neg hk] at h
      simp [storeRemove, hk, ih h]

theorem storeGet_remove_self {st : Store} (wf : StoreWF st) (k : String) :
    storeGet k (storeRemove k st).2 = none := by
  induction st with
  | nil => rfl
  | cons p rest ih =>
    obtain ⟨k', v'⟩ := p
    simp only [StoreWF, List.map_cons, List.nodup_cons] at wf
    by_cases hk : k' = k
    · subst hk
      simpa [storeRemove, storeGet_eq_none_iff] using wf.1
    · simpa [storeRemove, hk, storeGet, hk] using ih wf.2

theorem storeGet_insert (k k' v : String) (st : Store) :
    storeGet k' (storeInsert k v st) =
      if k = k' then some v else storeGet k' st := by
  induction st with
  | nil => simp [storeInsert, storeGet]
  | cons p rest ih =>
    obtain ⟨k₀, v₀⟩ := p
    by_cases h0 : k₀ = k
    · subst h0
      by_cases h1 : k₀ = k' <;> simp [storeInsert, storeGet, h1]
    · by_cases h1 : k₀ = k'
      · subst h1
        have : k ≠ k₀ := fun h => h0 h.symm
        simp [storeInsert, h0, storeGet, this]
      · simp [storeInsert, h0, storeGet, h1, ih]

/-! ## Lemmas about replay and compaction -/

theorem replayLines_logToReads (log : Log) (st : Store) :
    replayLines (logToReads log) st = .ok (log.foldl applyCommand st) := by
  induction log generalizing st with
  | nil => rfl
  | cons c rest ih =>
    simp only [logToReads, List.map_cons, replayLines, List.foldl_cons]
    simpa [logToReads] using ih (applyCommand st c)

theorem replayLines_no_readErr (lines : List LineRead)
    (h : ∀ lr ∈ lines, lr ≠ .readErr) (st : Store) :
    replayLines lines st =
      .ok ((parseableCommands lines).foldl applyCommand st) := by
  induction lines generalizing st with
  | nil => rfl
  | cons lr rest ih =>
    have hrest : ∀ l ∈ rest, l ≠ LineRead.readErr :=
      fun l hl => h l (List.mem_cons_of_mem _ hl)
    match lr with
    | .readErr => exact absurd rfl (h _ (List.mem_cons_self _ _))
    | .line (.corrupt s) => simpa [replayLines, parseableCommands] using ih hrest st
    | .line (.valid c) => simpa [replayLines, parseableCommands] using ih hrest _

theorem replayLines_filter_valid (lines : List LineRead)
    (h : ∀ lr ∈ lines, lr ≠ .readErr) (st : Store) :
    replayLines lines st =
      replayLines (lines.filter LineRead.isValidLine) st := by
  induction lines generalizing st with
  | nil => rfl
  | cons lr rest ih =>
    have hrest : ∀ l ∈ rest, l ≠ LineRead.readErr :=
      fun l hl => h l (List.mem_cons_of_mem _ hl)
    match lr with
    | .readErr => exact absurd rfl (h _ (List.mem_cons_self _ _))
    | .line (.corrupt s) =>
        simpa [List.filter_cons, LineRead.isValidLine] using ih hrest st
    | .line (.valid c) =>
        simpa [replayLines, List.filter_cons, LineRead.isValidLine]
          using ih hrest (applyCommand st c)

theorem compact_foldl (m acc : Store)
    (hnd : (m.map Prod.fst).Nodup)
    (hdisj : ∀ p ∈ m, p.1 ∉ acc.map Prod.fst) :
    (compact_log m).foldl applyCommand acc = acc ++ m := by
  induction m generalizing acc with
  | nil => simp [compact_log]
  | cons p rest ih =>
    obtain ⟨k, v⟩ := p
    simp only [List.map_cons, List.nodup_cons] at hnd
    have hk : k ∉ acc.map Prod.fst := hdisj (k, v) (List.mem_cons_self _ _)
    have step : applyCommand acc (Command.SET k v) = acc ++ [(k, v)] := by
      simp [applyCommand, storeInsert_of_not_mem hk]
    have hdisj' : ∀ p ∈ rest, p.1 ∉ (acc ++ [(k, v)]).map Prod.fst := by
      intro q hq
      simp only [List.map_append, List.mem_append, List.map_cons]
      push_neg
      refine ⟨hdisj q (List.mem_cons_of_mem _ hq), ?_⟩
      intro hmem
      simp only [List.map_nil, List.mem_cons, List.not_mem_nil, or_false] at hmem
      exact hnd.1 (hmem ▸ List.mem_map_of_mem Prod.fst hq)
    calc (compact_log ((k, v) :: rest)).foldl applyCommand acc
        = (compact_log rest).foldl applyCommand (applyCommand acc (.SET k v)) := by
          simp [compact_log]
      _ = (acc ++ [(k, v)]) ++ rest := by rw [step]; exact ih _ hnd.2 hdisj'
      _ = acc ++ ((k, v) :: rest) := by simp

theorem replay_compact {m : Store} (wf : StoreWF m) :
    replay_log (some (logToReads (compact_log m))) = .ok m := by
  rw [replay_log, replayLines_logToReads]
  have := compact_foldl m [] wf (by simp)
  simp [this]

theorem setCountFor_compact_of_get_none {k : String} {m : Store}
    (h : storeGet k m = none) : setCountFor k (compact_log m) = 0 := by
  induction m with
  | nil => rfl
  | cons p rest ih =>
    obtain ⟨k', v'⟩ := p
    by_cases hk : k' = k
    · subst hk; simp [storeGet] at h
    · simp only [storeGet, if_neg hk] at h
      simpa [setCountFor, compact_log, List.filter_cons, Command.isSetFor, hk]
        using ih h

theorem setCountFor_compact {m : Store} (wf : StoreWF m) (k : String) :
    setCountFor k (compact_log m) =
      if (storeGet k m).isSome then 1 else 0 := by
  induction m with
  | nil => rfl
  | cons p rest ih =>
    obtain ⟨k', v'⟩ := p
    simp only [StoreWF, List.map_cons, List.nodup_cons] at wf
    by_cases hk : k' = k
    · have hz : setCountFor k (compact_log rest) = 0 :=
        setCountFor_compact_of_get_none
          ((storeGet_eq_none_iff k rest).mpr (hk ▸ wf.1))
      simp only [setCountFor, compact_log, List.map_cons] at hz ⊢
      simp [List.filter_cons, Command.isSetFor, hk, storeGet, hz]
    · have := ih wf.2
      simp only [setCountFor, compact_log, List.map_cons] at this ⊢
      simpa [List.filter_cons, Command.isSetFor, hk, storeGet] using this

theorem storeGet_of_mem {m : Store} (wf : StoreWF m) {k v : String}
    (h : (k, v) ∈ m) : storeGet k m = some v := by
  induction m with
  | nil => simp at h
  | cons p rest ih =>
    obtain ⟨k', v'⟩ := p
    simp only [StoreWF, List.map_cons, List.nodup_cons] at wf
    rcases List.mem_cons.mp h with h1 | h1
    · injection h1 with hk hv
      subst hk; subst hv
      simp [storeGet]
    · by_cases hk : k' = k
      · exact absurd (hk ▸ List.mem_map_of_mem Prod.fst h1) wf.1
      · simp [storeGet, hk, ih wf.2 h1]

/-! ## The claims -/

/-- C3: `replay_log` equals the left fold, over the log's parseable entries
in file order starting from the empty map, of: `SET` inserts or overwrites,
`DELETE` removes the key if present, `GET` changes nothing; and a missing
log file is not an error and yields the empty store. -/
theorem c3_replay_is_foldl (lines : List LineRead)
    (hread : ∀ lr ∈ lines, lr ≠ .readErr) :
    replay_log (some lines) =
      .ok ((parseableCommands lines).foldl applyCommand []) ∧
    replay_log none = .ok ([] : Store) ∧
    (∀ (st : Store) (k v k' : String),
       storeGet k' (applyCommand st (.SET k v)) =
         if k = k' then some v else storeGet k' st) ∧
    (∀ (st : Store) (k : String),
       storeGet k st = none → applyCommand st (.DELETE k) = st) ∧
    (∀ (st : Store) (k : String), applyCommand st (.GET k) = st) := by
  refine ⟨replayLines_no_readErr lines hread [], rfl, ?_, ?_, fun st k => rfl⟩
  · intro st k v k'
    simpa [applyCommand] using storeGet_insert k k' v st
  · intro st k h
    simp [applyCommand, storeRemove_of_get_none h]

/-- Witness for C3 at a concrete three-line log containing a corrupted
line. -/
theorem c3_replay_is_foldl_witness :
    replay_log (some [LineRead.line (LogLine.valid (Command.SET "a" "1")),
                      LineRead.line (LogLine.corrupt "garbage"),
                      LineRead.line (LogLine.valid (Command.DELETE "a"))]) =
      .ok ((parseableCommands
             [LineRead.line (LogLine.valid (Command.SET "a" "1")),
              LineRead.line (LogLine.corrupt "garbage"),
              LineRead.line (LogLine.valid (Command.DELETE "a"))]).foldl
           applyCommand []) :=
  (c3_replay_is_foldl _ (by decide)).1

/-- C6: during replay an unparseable line is non-fatal: replay of a log
mixing valid and corrupted lines equals replay of just its valid lines, and
it returns a store (never an error) because of corrupted lines. -/
theorem c6_corrupt_line_skipped (lines : List LineRead)
    (hread : ∀ lr ∈ lines, lr ≠ .readErr) :
    replay_log (some lines) =
      replay_log (some (lines.filter LineRead.isValidLine)) ∧
    ∃ st, replay_log (some lines) = .ok st :=
  ⟨replayLines_filter_valid lines hread [],
   ⟨_, replayLines_no_readErr lines hread []⟩⟩

/-- Witness for C6 at a concrete log with a corrupted line between two
valid ones. -/
theorem c6_corrupt_line_skipped_witness :
    replay_log (some [LineRead.line (LogLine.valid (Command.SET "a" "1")),
                      LineRead.line (LogLine.corrupt "not json"),
                      LineRead.line (LogLine.valid (Command.SET "b" "2"))]) =
      replay_log (some ([LineRead.line (LogLine.valid (Command.SET "a" "1")),
                         LineRead.line (LogLine.corrupt "not json"),
                         LineRead.line (LogLine.valid (Command.SET "b" "2"))].filter
                        LineRead.isValidLine)) :=
  (c6_corrupt_line_skipped _ (by decide)).1

/-- C2: replaying the log produced by `compact_log m` yields exactly `m`;
the compacted log consists only of `SET` entries of live bindings, exactly
one per key of `m` (and none for absent keys, hence no `DELETE`/`GET`
entries at all); and compacting twice with no intervening mutation yields
logs that replay to the same store both times. -/
theorem c2_compaction_equivalence (m : Store) (wf : StoreWF m) :
    replay_log (some (logToReads (compact_log m))) = .ok m ∧
    (∀ c ∈ compact_log m,
       ∃ k v, c = Command.SET k v ∧ storeGet k m = some v) ∧
    (∀ k, setCountFor k (compact_log m) =
       if (storeGet k m).isSome then 1 else 0) ∧
    (∀ m₂, replay_log (some (logToReads (compact_log m))) = .ok m₂ →
       replay_log (some (logToReads (compact_log m₂))) = .ok m₂) := by
  refine ⟨replay_compact wf, ?_, setCountFor_compact wf, ?_⟩
  · intro c hc
    simp only [compact_log, List.mem_map] at hc
    obtain ⟨⟨k, v⟩, hmem, rfl⟩ := hc
    exact ⟨k, v, rfl, storeGet_of_mem wf hmem⟩
  · intro m₂ h
    have hm : m₂ = m := by
      have := replay_compact wf
      rw [this] at h
      exact (Except.ok.injEq _ _).mp h.symm
    rw [hm]
    exact replay_compact wf

/-- Witness for C2 at a concrete two-key store. -/
theorem c2_compaction_equivalence_witness :
    replay_log (some (logToReads (compact_log [("a", "1"), ("b", "2")]))) =
      .ok [("a", "1"), ("b", "2")] :=
  (c2_compaction_equivalence [("a", "1"), ("b", "2")] (by decide)).1

/-- C1: on every path executing a `SET` or `DELETE` (append succeeding or
failing), any map mutation and any response written to the client is
strictly preceded in the effect trace by the successful flushed append of
that command; and whenever the worker survives the command (no fatal I/O
error) the log has grown by exactly that entry. -/
theorem c1_durability_ordering (app : AppendResult) (st : Store) (log : Log)
    (k v : String) :
    appendBeforeEffects false (execCommand app st log (.SET k v)).events
      = true ∧
    appendBeforeEffects false (execCommand app st log (.DELETE k)).events
      = true ∧
    ((execCommand app st log (.SET k v)).fatal = false →
       (execCommand app st log (.SET k v)).log = log ++ [.SET k v]) ∧
    ((execCommand app st log (.DELETE k)).fatal = false →
       (execCommand app st log (.DELETE k)).log = log ++ [.DELETE k]) := by
  cases app <;>
    simp [execCommand, write_to_log, appendBeforeEffects]

/-- Witness for C1 at a concrete command and both append outcomes. -/
theorem c1_durability_ordering_witness :
    appendBeforeEffects false
      (execCommand .ok [] [] (.SET "a" "1")).events = true ∧
    appendBeforeEffects false
      (execCommand .ioError [] [] (.DELETE "a")).events = true :=
  ⟨(c1_durability_ordering .ok [] [] "a" "1").1,
   (c1_durability_ordering .ioError [] [] "a" "1").2.1⟩

/-- C4: when the log append fails with an I/O error, a mutating command
leaves the store and log unchanged, produces no response, and is fatal;
and in the connection loop such a failure terminates the worker at once —
the remaining input lines are never processed. -/
theorem c4_failed_append_fatal (st : Store) (log : Log) (c : Command)
    (hmut : c.isMutating = true) :
    execCommand .ioError st log c =
      ⟨[.appendFail c], st, log, none, true⟩ ∧
    ∀ (input : String) (rest : List (AppendResult × String)),
      parse_command input = .ok c →
      handle_client ((.ioError, input) :: rest) st log =
        ([.appendFail c], st, log, true) := by
  cases c with
  | GET k => simp [Command.isMutating] at hmut
  | SET k v =>
    refine ⟨rfl, ?_⟩
    intro input rest hp
    simp [handle_client, handle_line, hp, execCommand, write_to_log]
  | DELETE k =>
    refine ⟨rfl, ?_⟩
    intro input rest hp
    simp [handle_client, handle_line, hp, execCommand, write_to_log]

/-- Witness for C4: a failing append on `SET a 1` with further input
pending terminates the worker with nothing changed. -/
theorem c4_failed_append_fatal_witness :
    handle_client [(.ioError, "SET a 1"), (.ok, "GET a")] [] [] =
      ([Event.appendFail (.SET "a" "1")], [], [], true) :=
  (c4_failed_append_fatal [] [] (.SET "a" "1") rfl).2 "SET a 1"
    [(.ok, "GET a")] rfl

/-- C9: executing a `GET` changes neither the store nor the durable log, is
never fatal, and its effect trace contains no log-file operation at all
(no append, no failed append, no compaction write), for every key and
every append-outcome environment. -/
theorem c9_get_is_pure (app : AppendResult) (st : Store) (log : Log)
    (k : String) :
    (execCommand app st log (.GET k)).store = st ∧
    (execCommand app st log (.GET k)).log = log ∧
    (execCommand app st log (.GET k)).fatal = false ∧
    ∀ e ∈ (execCommand app st log (.GET k)).events,
      (∀ c, e ≠ .appendFlush c) ∧ (∀ c, e ≠ .appendFail c) ∧
      e ≠ .compactWrite := by
  refine ⟨rfl, rfl, rfl, ?_⟩
  intro e he
  simp only [execCommand, List.mem_cons, List.not_mem_nil, or_false] at he
  rcases he with rfl | rfl | rfl | rfl <;> simp

/-- Witness for C9: the lock acquisition in a concrete `GET` execution is
not a log-file operation. -/
theorem c9_get_is_pure_witness :
    (∀ c, Event.lockAcquire ≠ Event.appendFlush c) ∧
    (∀ c, Event.lockAcquire ≠ Event.appendFail c) ∧
    Event.lockAcquire ≠ Event.compactWrite :=
  (c9_get_is_pure .ok [("a", "1")] [] "a").2.2.2 Event.lockAcquire (by decide)

/-- C10: a `DELETE` of an absent key still appends and flushes a `DELETE`
entry before the store is consulted: the log grows by that entry, the
first effect is the flushed append, the store is unchanged, and the
response is `(nil)`. -/
theorem c10_delete_absent_logged (st : Store) (log : Log) (k : String)
    (h : storeGet k st = none) :
    execCommand .ok st log (.DELETE k) =
      ⟨[.appendFlush (.DELETE k), .lockAcquire, .mapRemove k,
        .lockRelease, .sockWrite "(nil)\n"],
       st, log ++ [.DELETE k], some "(nil)\n", false⟩ := by
  simp [execCommand, write_to_log, storeRemove_of_get_none h]

/-- Witness for C10: deleting `a` in the empty store. -/
theorem c10_delete_absent_logged_witness :
    execCommand .ok [] [] (.DELETE "a") =
      ⟨[.appendFlush (.DELETE "a"), .lockAcquire, .mapRemove "a",
        .lockRelease, .sockWrite "(nil)\n"],
       [], [.DELETE "a"], some "(nil)\n", false⟩ :=
  c10_delete_absent_logged [] [] "a" rfl

/-- C8: `GET` of an absent key responds `(nil)` and of a present key
responds its value; `DELETE` responds `OK` iff the key was present and
`(nil)` iff it was absent; and a `DELETE` followed by a `GET` of the same
key responds `(nil)`. -/
theorem c8_response_semantics (st : Store) (log : Log) (k : String)
    (wf : StoreWF st) :
    (storeGet k st = none →
       (execCommand .ok st log (.GET k)).response = some "(nil)\n") ∧
    (∀ v, storeGet k st = some v →
       (execCommand .ok st log (.GET k)).response = some (v ++ "\n")) ∧
    ((execCommand .ok st log (.DELETE k)).response = some "OK\n" ↔
       (storeGet k st).isSome = true) ∧
    ((execCommand .ok st log (.DELETE k)).response = some "(nil)\n" ↔
       storeGet k st = none) ∧
    (∀ log₂, (execCommand .ok
        (execCommand .ok st log (.DELETE k)).store log₂ (.GET k)).response =
       some "(nil)\n") := by
  refine ⟨?_, ?_, ?_, ?_, ?_⟩
  · intro h; simp [execCommand, h]
  · intro v h; simp [execCommand, h]
  · cases hg : storeGet k st with
    | none =>
      have h1 : storeRemove k st = (none, st) := storeRemove_of_get_none hg
      simp [execCommand, write_to_log, h1]
      decide
    | some v =>
      have h1 : (storeRemove k st).1 = some v := by rw [storeRemove_fst, hg]
      simp [execCommand, write_to_log, h1]
  · cases hg : storeGet k st with
    | none =>
      have h1 : storeRemove k st = (none, st) := storeRemove_of_get_none hg
      simp [execCommand, write_to_log, h1]
    | some v =>
      have h1 : (storeRemove k st).1 = some v := by rw [storeRemove_fst, hg]
      simp [execCommand, write_to_log, h1]
      decide
  · intro log₂
    have hst : (execCommand .ok st log (.DELETE k)).store =
        (storeRemove k st).2 := rfl
    rw [hst]
    simp [execCommand, storeGet_remove_self wf k]

/-- Witness for C8 at the one-key store `{a ↦ 1}`. -/
theorem c8_response_semantics_witness :
    (execCommand .ok [("a", "1")] [] (.DELETE "a")).response = some "OK\n" ∧
    (execCommand .ok
       (execCommand .ok [("a", "1")] [] (.DELETE "a")).store []
       (.GET "a")).response = some "(nil)\n" :=
  ⟨(c8_response_semantics [("a", "1")] [] "a" (by decide)).2.2.1.mpr rfl,
   (c8_response_semantics [("a", "1")] [] "a" (by decide)).2.2.2.2 []⟩

/-- C5 (counterexample): the claim that I/O never occurs while the store
lock is held fails at the shutdown sequence of `main` — the final
`compact_log`'s file I/O runs while the `MutexGuard` from
`database.lock()` is still alive. -/
theorem c5_shutdown_io_under_lock :
    ¬ (noIOWhileLocked false shutdownSequence = true) := by decide

/-- C5 (amended): every connection worker performs its I/O outside the
lock — the log append precedes `lock()` and the socket write follows
`drop(map)` — on every path of every input line; but the coordinator's
shutdown-time compaction performs its file I/O while the lock is held
(the guard is not dropped, and no copy is taken, before `compact_log`). -/
theorem c5_worker_io_outside_lock :
    (∀ (app : AppendResult) (st : Store) (log : Log) (input : String),
       noIOWhileLocked false (handle_line app st log input).events = true) ∧
    noIOWhileLocked false shutdownSequence = false := by
  refine ⟨?_, rfl⟩
  intro app st log input
  rw [handle_line]
  cases hp : parse_command input with
  | error msg => rfl
  | ok c =>
    cases c <;> cases app <;>
      simp [execCommand, write_to_log, noIOWhileLocked, Event.isIOEvent]

/-- C7: `parse_command` implements exactly the specified parser contract:
tokenize by whitespace; fail on empty input with the empty-command error;
match the verb case-insensitively against SET/GET/DELETE; `SET` succeeds
iff exactly 2 tokens remain (else the SET arity error), `GET`/`DELETE` iff
exactly 1 remains (else their arity errors); any other verb is the unknown
command error. -/
theorem c7_parse_command_matches_spec (input : String) :
    parse_command input = parseCommandSpec input := by
  rw [parse_command, parseCommandSpec]
  cases splitWhitespace input with
  | nil => rfl
  | cons verb args =>
    dsimp only
    by_cases h1 : toUpperString verb = "SET"
    · rw [h1]
      rcases args with _ | ⟨a, _ | ⟨b, _ | ⟨c, rest⟩⟩⟩ <;> simp
    · by_cases h2 : toUpperString verb = "GET"
      · rw [h2]
        rcases args with _ | ⟨a, _ | ⟨b, _ | ⟨c, rest⟩⟩⟩ <;> simp
      · by_cases h3 : toUpperString verb = "DELETE"
        · rw [h3]
          rcases args with _ | ⟨a, _ | ⟨b, _ | ⟨c, rest⟩⟩⟩ <;> simp
        · simp only [if_neg h1, if_neg h2, if_neg h3]

end KVStore
